/-
Verification of the DNA smart-contract execution core against its
natural-language specification.

The definitions below are a shallow embedding of the Go source:
  * smartcontract/smart_contract.go   (SmartContract: context stack,
    CheckWitness, gas/step counters, NewExecuteEngine)
  * smartcontract/service/neovm/neovm_service.go  (NeoVmService.Invoke,
    SystemCall, getContract, checkStackSize)
  * smartcontract/service/native/ontid helpers (encodeID / decodeID)

Machine integers are modelled as Nat; byte strings as List Nat; fallible
Go code returns Except.  Go maps/registries become Lean functions into
Option.  Where a helper lives outside the provided sources its modelling
is stated in its doc comment.
-/
import Mathlib

namespace DNA

/-- 20-byte account / contract identifier (`common.Address`). -/
abbrev Address := List Nat

/-- Raw byte string. -/
abbrev Bytes := List Nat

/-! ## Contract call contexts (`smartcontract/context`, `SmartContract`) -/

/-- VM instruction, restricted to the fragment the claims exercise:
pushing a byte-string literal, `Runtime.Notify` of a payload, and
`APPCALL` with its 20-byte immediate operand. -/
inductive Instr where
  | push (v : Bytes)
  | notify (p : Bytes)
  | appcall (operand : Bytes)
deriving DecidableEq, Repr

abbrev Program := List Instr

/-- `context.Context`: one entry of the contract call stack. -/
structure Context where
  contractAddress : Address
  code : Program
deriving DecidableEq, Repr

/-- `event.NotifyEventInfo`: one emitted notification. -/
structure NotifyEventInfo where
  contractAddress : Address
  states : Bytes
deriving DecidableEq, Repr

/-- `SmartContract.PushContext`: appends the context
(`this.Contexts = append(this.Contexts, context)`); the top of the
context stack is the last list element. -/
def pushContext (ctxs : List Context) (c : Context) : List Context :=
  ctxs ++ [c]

/-- `SmartContract.CurrentContext`: returns nil when fewer than 1
context exists, else `Contexts[len(Contexts)-1]`. -/
def currentContext (ctxs : List Context) : Option Context :=
  if ctxs.length < 1 then none else ctxs.get? (ctxs.length - 1)

/-- `SmartContract.CallingContext`: returns nil when fewer than 2
contexts exist, else `Contexts[len(Contexts)-2]`. -/
def callingContext (ctxs : List Context) : Option Context :=
  if ctxs.length < 2 then none else ctxs.get? (ctxs.length - 2)

/-- `SmartContract.EntryContext`: returns nil when fewer than 1 context
exists, else `Contexts[0]`. -/
def entryContext (ctxs : List Context) : Option Context :=
  if ctxs.length < 1 then none else ctxs.get? 0

/-- `SmartContract.PopContext`: drops the last context only when
`len(this.Contexts) > 1`; otherwise it does nothing. -/
def popContext (ctxs : List Context) : List Context :=
  if ctxs.length > 1 then ctxs.dropLast else ctxs

/-- `MAX_EXECUTE_ENGINE` from smart_contract.go. -/
def MAX_EXECUTE_ENGINE : Nat := 1024

/-- `SmartContract.checkContexts`: fails exactly when
`len(this.Contexts) > MAX_EXECUTE_ENGINE`. -/
def checkContexts (depth : Nat) : Bool :=
  !(depth > MAX_EXECUTE_ENGINE)

/-! ## CheckWitness (`SmartContract.CheckWitness`) -/

/-- The transaction as CheckWitness sees it: `GetSignatureAddresses`
either errors (`none`) or yields the list of signing addresses. -/
structure TxModel where
  sigAddrs : Option (List Address)

/-- `SmartContract.checkAccountAddress`: on a `GetSignatureAddresses`
error it logs and returns false; otherwise it scans the returned list
for an exact match. -/
def checkAccountAddress (tx : TxModel) (address : Address) : Bool :=
  match tx.sigAddrs with
  | none => false
  | some addrs => addrs.any (fun v => v = address)

/-- `SmartContract.checkContractAddress`: true iff the calling context
exists and its `ContractAddress` equals the queried address. -/
def checkContractAddress (ctxs : List Context) (address : Address) : Bool :=
  match callingContext ctxs with
  | none => false
  | some c => c.contractAddress = address

/-- `SmartContract.CheckWitness`: account-signature check or
calling-contract-address check. -/
def CheckWitness (tx : TxModel) (ctxs : List Context) (address : Address) : Bool :=
  checkAccountAddress tx address || checkContractAddress ctxs address

/-! ## NeoVmService.Invoke (neovm_service.go)

The interpreter below embeds the `Invoke` loop for the instruction
fragment the claims exercise (`push`, `Runtime.Notify`, `APPCALL`).
Gas metering and the PreExec step limit are orthogonal to these claims
and are not modelled in this fragment. -/

/-- `BYTE_ZERO_20` from neovm_service.go. -/
def BYTE_ZERO_20 : Bytes := List.replicate 20 0

inductive VmErr where
  | executeCode      -- ERR_EXECUTE_CODE (empty code)
  | readError        -- OpReader.ReadBytes(20) failed
  | tooFewParams     -- "[Appcall] too few input parameters"
  | badAddrLen       -- "[Appcall] pop contract address len != 20"
  | contractNotExist -- CONTRACT_NOT_EXIST
  | engineOverLimit  -- "engine over max limit!"
  | nilContext       -- Go nil-pointer dereference on CurrentContext()
  | outOfFuel        -- artefact of the fuel-indexed embedding only
deriving DecidableEq, Repr

/-- The contract-call bookkeeping shared by all nested engines
(the `SmartContract` fields `Contexts` and `Notifications`). -/
structure SCState where
  contexts : List Context
  notifications : List NotifyEventInfo
deriving DecidableEq, Repr

/-- Per-engine state of one `NeoVmService`: its own notification buffer
and its evaluation stack (head = top). -/
structure ServiceSt where
  notifications : List NotifyEventInfo
  stack : List Bytes
deriving DecidableEq, Repr

/-- The target-address resolution of the `case vm.APPCALL` block:
read 20 immediate bytes; when they are all zero pop the address from
the evaluation stack instead and require its length to be exactly 20.
Returns the target address and the remaining evaluation stack. -/
def resolveAppcallTarget (operand : Bytes) (stack : List Bytes) :
    Except VmErr (Address × List Bytes) :=
  if operand.length ≠ 20 then .error .readError
  else if operand = BYTE_ZERO_20 then
    match stack with
    | [] => .error .tooFewParams
    | a :: rest => if a.length ≠ 20 then .error .badAddrLen else .ok (a, rest)
  else .ok (operand, stack)

/-- One iteration of the `Invoke` loop per instruction; `fuel` only
bounds the recursion depth of the embedding (Go has no such bound) and
decreases by one per executed instruction.

`notify` is Modelled from the spec: the body of `RuntimeNotify` is not
among the provided sources; per the spec ("NotifyEvent ... Buffered in
order; flushed to the transaction result on top-level success") and the
`NeoVmService.Notifications` field that `Invoke` flushes through
`ContextRef.PushNotifications`, it appends
`{CurrentContext().ContractAddress, states}` to the invoking service's
own buffer.

`appcall` follows neovm_service.go: resolve the target, `getContract`
(a `CacheDB` lookup, here the `contracts` map), `NewExecuteEngine`
(which runs `checkContexts` on the current context-stack depth),
`EvaluationStack.CopyTo` the entire parent stack into the fresh child
engine, the child's recursive `Invoke` (its body inlined here: reject
empty code, `PushContext`, run, then `PopContext` / `PushNotifications`
/ `Peek(0)` on success), and push the child's single result (if any) on
the parent stack. -/
def run (addrOf : Program → Address) (contracts : Address → Option Program) :
    Nat → SCState → ServiceSt → List Instr → Except VmErr (SCState × ServiceSt)
  | 0, _, _, _ => .error .outOfFuel
  | _ + 1, sc, svc, [] => .ok (sc, svc)
  | fuel + 1, sc, svc, .push v :: rest =>
      run addrOf contracts fuel sc { svc with stack := v :: svc.stack } rest
  | fuel + 1, sc, svc, .notify p :: rest =>
      match currentContext sc.contexts with
      | none => .error .nilContext
      | some c =>
          run addrOf contracts fuel sc
            { svc with notifications := svc.notifications ++ [⟨c.contractAddress, p⟩] } rest
  | fuel + 1, sc, svc, .appcall operand :: rest =>
      match resolveAppcallTarget operand svc.stack with
      | .error e => .error e
      | .ok (addr, stack1) =>
        match contracts addr with
        | none => .error .contractNotExist
        | some prog =>
          if checkContexts sc.contexts.length then
            match ((if prog = [] then .error .executeCode
                    else
                      match run addrOf contracts fuel
                          { sc with contexts := pushContext sc.contexts ⟨addrOf prog, prog⟩ }
                          ⟨[], stack1⟩ prog with
                      | .error e => .error e
                      | .ok (sc2, csvc) =>
                          .ok (csvc.stack.head?,
                               ({ contexts := popContext sc2.contexts,
                                  notifications := sc2.notifications ++ csvc.notifications }
                                : SCState)))
                   : Except VmErr (Option Bytes × SCState)) with
            | .error e => .error e
            | .ok (result, sc') =>
                run addrOf contracts fuel sc'
                  { svc with stack := match result with
                      | some v => v :: stack1
                      | none => stack1 } rest
          else .error .engineOverLimit

/-- `NeoVmService.Invoke`: reject empty code; `PushContext` a context
whose address is `AddressFromVmCode(code)` (the abstract `addrOf`); run
the loop on a fresh engine whose evaluation stack was initialised by
the caller's `CopyTo`; on normal termination `PopContext`, flush the
service's buffered notifications via `PushNotifications`, and return
`Peek(0)` of the evaluation stack when it is non-empty.  Errors abort
before the epilogue, exactly as the Go `return nil, err` paths do. -/
def invoke (addrOf : Program → Address) (contracts : Address → Option Program)
    (fuel : Nat) (sc : SCState) (initStack : List Bytes) (code : Program) :
    Except VmErr (Option Bytes × SCState) :=
  if code = [] then .error .executeCode
  else
    match run addrOf contracts fuel
        { sc with contexts := pushContext sc.contexts ⟨addrOf code, code⟩ }
        ⟨[], initStack⟩ code with
    | .error e => .error e
    | .ok (sc2, svc) =>
        .ok (svc.stack.head?,
             { contexts := popContext sc2.contexts,
               notifications := sc2.notifications ++ svc.notifications })

/-! ## Concrete two-contract scenario (spec §8, S4/S6) -/

/-- Address of the outer contract A in the concrete scenarios. -/
def addrA : Address := 1 :: List.replicate 19 0

/-- Address of the inner contract B in the concrete scenarios. -/
def addrB : Address := 2 :: List.replicate 19 0

/-- Contract B: emits `Notify("b1")` (payload `[11]`). -/
def progB : Program := [.notify [11]]

/-- Contract A: emits `Notify("a1")` (payload `[1]`), APPCALLs B, then
emits `Notify("a2")` (payload `[2]`). -/
def progA : Program := [.notify [1], .appcall addrB, .notify [2]]

/-- `AddressFromVmCode` restricted to the scenario's two programs. -/
def addrOfEx : Program → Address := fun p => if p = progB then addrB else addrA

/-- The deployed-contract store of the scenario. -/
def contractsEx : Address → Option Program :=
  fun a => if a = addrB then some progB else if a = addrA then some progA else none

/-- The notifications a single frame of `prog` executing as contract
`a` emits, in program order. -/
def notifyEvents (a : Address) (prog : Program) : List NotifyEventInfo :=
  prog.filterMap (fun i => match i with
    | .notify p => some ⟨a, p⟩
    | _ => none)

theorem currentContext_pushContext (ctxs : List Context) (c : Context) :
    currentContext (pushContext ctxs c) = some c := by
  simp [currentContext, pushContext, List.getElem?_concat_length]

/-- An APPCALL-free instruction list leaves the shared `SmartContract`
state untouched and appends its notifications, in program order and
stamped with the current context's address, to the engine's buffer. -/
theorem run_no_appcall (addrOf : Program → Address)
    (contracts : Address → Option Program) (c : Context) :
    ∀ (insns : List Instr) (fuel : Nat) (sc : SCState) (svc : ServiceSt),
      (∀ p, Instr.appcall p ∉ insns) →
      insns.length < fuel →
      currentContext sc.contexts = some c →
      ∃ st, run addrOf contracts fuel sc svc insns =
        .ok (sc, ⟨svc.notifications ++ notifyEvents c.contractAddress insns, st⟩) := by
  intro insns
  induction insns with
  | nil =>
      intro fuel sc svc _ hf hc
      match fuel, hf with
      | f + 1, _ => exact ⟨svc.stack, by simp [run, notifyEvents]⟩
  | cons i rest ih =>
      intro fuel sc svc hno hf hc
      match fuel, hf with
      | f + 1, hf =>
        have hrest : ∀ p, Instr.appcall p ∉ rest := by
          intro p hp; exact hno p (List.mem_cons_of_mem _ hp)
        have hflt : rest.length < f := by simpa using hf
        cases i with
        | push v =>
            obtain ⟨st, h⟩ := ih f sc { svc with stack := v :: svc.stack } hrest hflt hc
            exact ⟨st, by simpa [run, notifyEvents] using h⟩
        | notify p =>
            obtain ⟨st, h⟩ :=
              ih f sc { svc with
                notifications := svc.notifications ++ [⟨c.contractAddress, p⟩] }
                hrest hflt hc
            refine ⟨st, ?_⟩
            simp only [run, hc]
            simpa [notifyEvents] using h
        | appcall op =>
            exact absurd (List.mem_cons_self _ _) (hno op)

/-! ### C1: notification ordering across nested frames -/

/-- C1 counterexample: in the S4 scenario (A notifies `a1`, APPCALLs B
which notifies `b1`, A notifies `a2`), the code produces the final list
`[(B,b1), (A,a1), (A,a2)]`, not the claimed `[(A,a1), (B,b1), (A,a2)]`:
each frame's buffer is flushed only when that frame halts, so B's
notification overtakes A's earlier one. -/
theorem notify_order_scenario_counterexample :
    (invoke addrOfEx contractsEx 10 ⟨[], []⟩ [] progA).map
        (fun r => r.2.notifications) =
      .ok [⟨addrB, [11]⟩, ⟨addrA, [1]⟩, ⟨addrA, [2]⟩] ∧
    ([⟨addrB, [11]⟩, ⟨addrA, [1]⟩, ⟨addrA, [2]⟩] : List NotifyEventInfo) ≠
      [⟨addrA, [1]⟩, ⟨addrB, [11]⟩, ⟨addrA, [2]⟩] :=
  ⟨rfl, by decide⟩

/-- C1 (amended): within one frame, notifications are appended in the
exact order of its `Runtime.Notify` calls; but a frame's buffer reaches
the transaction-level list only when that frame's `Invoke` halts, so a
nested frame's notifications precede the notifications its caller
emitted before the APPCALL.  In the S4 scenario the final list on HALT
is `[(B,b1), (A,a1), (A,a2)]`. -/
theorem notify_order_amended :
    (∀ (addrOf : Program → Address) (contracts : Address → Option Program)
       (code : Program) (fuel : Nat) (sc : SCState) (initStack : List Bytes),
       code ≠ [] → (∀ p, Instr.appcall p ∉ code) → code.length < fuel →
       ∃ r sc', invoke addrOf contracts fuel sc initStack code = .ok (r, sc') ∧
         sc'.notifications = sc.notifications ++ notifyEvents (addrOf code) code) ∧
    (invoke addrOfEx contractsEx 10 ⟨[], []⟩ [] progA).map
        (fun r => r.2.notifications) =
      .ok [⟨addrB, [11]⟩, ⟨addrA, [1]⟩, ⟨addrA, [2]⟩] := by
  constructor
  · intro addrOf contracts code fuel sc initStack hne hno hf
    obtain ⟨st, h⟩ :=
      run_no_appcall addrOf contracts ⟨addrOf code, code⟩ code fuel
        { sc with contexts := pushContext sc.contexts ⟨addrOf code, code⟩ }
        ⟨[], initStack⟩ hno hf
        (currentContext_pushContext sc.contexts ⟨addrOf code, code⟩)
    refine ⟨st.head?,
      ⟨popContext (pushContext sc.contexts ⟨addrOf code, code⟩),
       sc.notifications ++ notifyEvents (addrOf code) code⟩, ?_, rfl⟩
    simp [invoke, hne, h]
  · rfl

/-- Witness for `notify_order_amended` at a concrete appcall-free
program. -/
theorem notify_order_amended_witness :
    ∃ r sc',
      invoke (fun _ => addrA) (fun _ => none) 2 ⟨[], []⟩ [] [.notify [5]] =
        .ok (r, sc') ∧
      sc'.notifications =
        SCState.notifications ⟨[], []⟩ ++
          notifyEvents ((fun _ => addrA) [Instr.notify [5]]) [.notify [5]] :=
  notify_order_amended.1 (fun _ => addrA) (fun _ => none) [.notify [5]] 2
    ⟨[], []⟩ [] (by decide) (by intro p h; simp at h) (by decide)

/-! ### C7: context-stack accessors and PopContext -/

/-- C7: `PopContext` drops the top context exactly when at least two
contexts exist and is a no-op otherwise, so the entry context
`Contexts[0]` survives every pop; `EntryContext` is the first element,
`CurrentContext` the last, `CallingContext` the second-from-last, each
empty (`none`) when fewer than the required number of contexts exist. -/
theorem context_stack_ops (ctxs : List Context) :
    (2 ≤ ctxs.length → popContext ctxs = ctxs.dropLast) ∧
    (ctxs.length < 2 → popContext ctxs = ctxs) ∧
    entryContext (popContext ctxs) = entryContext ctxs ∧
    currentContext ctxs = ctxs.getLast? ∧
    callingContext ctxs = ctxs.dropLast.getLast? ∧
    entryContext ctxs = ctxs.head? := by
  refine ⟨?_, ?_, ?_, ?_, ?_, ?_⟩
  · intro h; simp [popContext]; omega
  · intro h; simp [popContext]; omega
  · match ctxs with
    | [] => simp [popContext, entryContext]
    | [a] => simp [popContext, entryContext]
    | a :: b :: t => simp [popContext, entryContext]
  · match ctxs with
    | [] => simp [currentContext]
    | a :: t => simp [currentContext, List.getLast?_eq_getElem?]
  · match ctxs with
    | [] => simp [callingContext]
    | [a] => simp [callingContext]
    | a :: b :: t =>
        simp only [callingContext, List.getLast?_eq_getElem?, List.getElem?_dropLast,
          List.length_dropLast, List.length_cons]
        rw [if_neg (by omega), if_pos (by omega), List.get?_eq_getElem?]
        congr 1
  · cases ctxs with
    | nil => simp [entryContext]
    | cons a t => simp [entryContext]

/-- Witness for `context_stack_ops` on a two-element context stack. -/
theorem context_stack_ops_witness :
    popContext [⟨addrA, []⟩, ⟨addrB, []⟩] =
      List.dropLast [⟨addrA, []⟩, ⟨addrB, []⟩] :=
  (context_stack_ops [⟨addrA, []⟩, ⟨addrB, []⟩]).1 (by decide)

/-! ### C2: CheckWitness -/

/-- C2: when `GetSignatureAddresses` succeeds, `CheckWitness(addr)` is
true iff `addr` is a signing address of the transaction or equals the
contract address of the calling (second-from-top) context; hence
inside contract B called by A, `CheckWitness(address_of_A)` holds and
`CheckWitness(address_of_B)` fails (B being current, not calling,
provided B's address is neither a signer nor equal to A's). -/
theorem check_witness_iff :
    (∀ (tx : TxModel) (addrs : List Address) (ctxs : List Context) (a : Address),
      tx.sigAddrs = some addrs →
      (CheckWitness tx ctxs a = true ↔
        a ∈ addrs ∨ (∃ c, callingContext ctxs = some c ∧ c.contractAddress = a))) ∧
    (∀ (tx : TxModel) (addrs : List Address) (ctxA ctxB : Context),
      tx.sigAddrs = some addrs →
      ctxB.contractAddress ∉ addrs →
      ctxB.contractAddress ≠ ctxA.contractAddress →
      CheckWitness tx [ctxA, ctxB] ctxA.contractAddress = true ∧
      CheckWitness tx [ctxA, ctxB] ctxB.contractAddress = false) := by
  have hiff : ∀ (tx : TxModel) (addrs : List Address) (ctxs : List Context) (a : Address),
      tx.sigAddrs = some addrs →
      (CheckWitness tx ctxs a = true ↔
        a ∈ addrs ∨ (∃ c, callingContext ctxs = some c ∧ c.contractAddress = a)) := by
    intro tx addrs ctxs a h
    simp only [CheckWitness, checkAccountAddress, checkContractAddress, h,
      Bool.or_eq_true, List.any_eq_true, decide_eq_true_eq]
    constructor
    · rintro (⟨v, hv, rfl⟩ | hc)
      · exact Or.inl hv
      · right
        cases hcc : callingContext ctxs with
        | none => rw [hcc] at hc; simp at hc
        | some c => rw [hcc] at hc; simp at hc; exact ⟨c, rfl, hc⟩
    · rintro (ha | ⟨c, hc, rfl⟩)
      · exact Or.inl ⟨a, ha, rfl⟩
      · right; rw [hc]; simp
  refine ⟨hiff, ?_⟩
  intro tx addrs ctxA ctxB h hB hne
  have hcall : callingContext [ctxA, ctxB] = some ctxA := by
    simp [callingContext]
  constructor
  · rw [hiff tx addrs _ _ h]
    exact Or.inr ⟨ctxA, hcall, rfl⟩
  · rw [← Bool.not_eq_true]
    rw [hiff tx addrs _ _ h]
    rintro (hmem | ⟨c, hc, hca⟩)
    · exact hB hmem
    · rw [hcall] at hc
      cases hc
      exact hne hca.symm

/-- Witness for `check_witness_iff`: a one-signer transaction inside
contract B called by contract A. -/
theorem check_witness_iff_witness :
    CheckWitness ⟨some [addrA]⟩ [⟨addrA, []⟩, ⟨addrB, []⟩] addrA = true ∧
    CheckWitness ⟨some [addrA]⟩ [⟨addrA, []⟩, ⟨addrB, []⟩] addrB = false :=
  check_witness_iff.2 ⟨some [addrA]⟩ [addrA] ⟨addrA, []⟩ ⟨addrB, []⟩ rfl
    (by decide) (by decide)

/-! ### C10: signature-address retrieval errors are swallowed -/

/-- C10: when `GetSignatureAddresses` fails, `CheckWitness` does not
propagate the error: the account check yields `false` and the overall
result degenerates to the calling-contract-address check alone. -/
theorem check_witness_sig_error_fallback (tx : TxModel) (ctxs : List Context)
    (a : Address) (h : tx.sigAddrs = none) :
    checkAccountAddress tx a = false ∧
    CheckWitness tx ctxs a = checkContractAddress ctxs a := by
  have hacc : checkAccountAddress tx a = false := by
    simp [checkAccountAddress, h]
  exact ⟨hacc, by simp [CheckWitness, hacc]⟩

/-- Witness for `check_witness_sig_error_fallback` on a failing
transaction and a two-deep context stack. -/
theorem check_witness_sig_error_fallback_witness :
    checkAccountAddress ⟨none⟩ addrA = false ∧
    CheckWitness ⟨none⟩ [⟨addrA, []⟩, ⟨addrB, []⟩] addrA =
      checkContractAddress [⟨addrA, []⟩, ⟨addrB, []⟩] addrA :=
  check_witness_sig_error_fallback ⟨none⟩ [⟨addrA, []⟩, ⟨addrB, []⟩] addrA rfl

/-! ### C3: context-stack depth bound -/

/-- Depths of the contract-context stack reachable by the execution
core.  `push` is the APPCALL path: `NewExecuteEngine` first runs
`checkContexts` against the current depth and only then does the child
`Invoke` push one more context; `pop` is `PopContext`, a no-op below
depth 2. -/
inductive ReachableDepth : Nat → Prop where
  | init : ReachableDepth 0
  | push (d : Nat) : ReachableDepth d → checkContexts d = true →
      ReachableDepth (d + 1)
  | pop (d : Nat) : ReachableDepth d →
      ReachableDepth (if 1 < d then d - 1 else d)

theorem reachableDepth_all (d : Nat) (h : d ≤ MAX_EXECUTE_ENGINE + 1) :
    ReachableDepth d := by
  induction d with
  | zero => exact .init
  | succ n ih =>
      refine .push n (ih (by omega)) ?_
      simp only [checkContexts, MAX_EXECUTE_ENGINE] at *
      simp only [Bool.not_eq_true', decide_eq_false_iff_not]
      omega

/-- C3 counterexample: depth 1025 is reachable, because `checkContexts`
only rejects a *new* engine when the depth already strictly exceeds
`MAX_EXECUTE_ENGINE = 1024` — with exactly 1024 live contexts the check
still passes and the child pushes context number 1025. -/
theorem context_depth_counterexample :
    ReachableDepth (MAX_EXECUTE_ENGINE + 1) ∧ MAX_EXECUTE_ENGINE + 1 > 1024 :=
  ⟨reachableDepth_all (MAX_EXECUTE_ENGINE + 1) (le_refl _), by decide⟩

/-- C3 (amended): the context-stack depth never exceeds 1025
(= `MAX_EXECUTE_ENGINE` + 1): creating a nested execute engine fails
exactly when the current depth already exceeds 1024, so one context
beyond the nominal limit can still be pushed, and no more. -/
theorem context_depth_amended :
    (∀ d, ReachableDepth d → d ≤ MAX_EXECUTE_ENGINE + 1) ∧
    (∀ d, checkContexts d = false ↔ d > MAX_EXECUTE_ENGINE) := by
  constructor
  · intro d h
    induction h with
    | init => omega
    | push d _ hchk ih =>
        simp only [checkContexts, Bool.not_eq_true', decide_eq_false_iff_not,
          Decidable.not_not] at hchk
        omega
    | pop d _ ih => split <;> omega
  · intro d
    simp [checkContexts]

/-- Witness for `context_depth_amended` at the initial depth. -/
theorem context_depth_amended_witness : 0 ≤ MAX_EXECUTE_ENGINE + 1 :=
  context_depth_amended.1 0 ReachableDepth.init

/-! ### C4: stack-size enforcement (checkStackSize)

Opcode byte values below are those of the `vm/neovm` opcode table,
which is not among the provided sources; they are Modelled from the
spec's opcode taxonomy (§4.2) and the standard NeoVM encoding it
describes (`PUSH0..PUSH16`, `PUSHBYTES1..75`, `PUSHDATA{1,2,4}`,
`PUSHM1`, stack and collection opcodes).  `DUPLICATE_STACK_SIZE` is the
spec's 2048-item bound. -/

def PUSH0 : Nat := 0x00
def PUSHBYTES1 : Nat := 0x01
def PUSHBYTES75 : Nat := 0x4B
def PUSHDATA1 : Nat := 0x4C
def PUSHDATA2 : Nat := 0x4D
def PUSHDATA4 : Nat := 0x4E
def PUSHM1 : Nat := 0x4F
def PUSH1 : Nat := 0x51
def PUSH16 : Nat := 0x60
def DEPTH : Nat := 0x74
def DUP : Nat := 0x76
def OVER : Nat := 0x78
def TUCK : Nat := 0x7D
def UNPACK : Nat := 0xC2
def DUPLICATE_STACK_SIZE : Nat := 2048

/-- Evaluation-stack item as `checkStackSize` inspects it: only the
element count of a top-of-stack `Array`/`Struct` is consulted. -/
inductive VmItem where
  | arr (n : Nat)
  | strct (n : Nat)
  | prim
deriving DecidableEq, Repr

/-- `checkStackSize` from neovm_service.go: predicted growth is 1 for
any opcode byte `< PUSH16`, 1 for `DEPTH`/`DUP`/`OVER`/`TUCK`, the
element count of the top-of-stack Array/Struct for `UNPACK` (failing
outright when the stack is empty), 0 otherwise; the prediction plus
evaluation-stack plus alt-stack count must not exceed
`DUPLICATE_STACK_SIZE`. -/
def checkStackSize (opCode : Nat) (eval : List VmItem) (altCount : Nat) : Bool :=
  let sizeOpt : Option Nat :=
    if opCode < PUSH16 then some 1
    else if opCode = DEPTH || opCode = DUP || opCode = OVER || opCode = TUCK then
      some 1
    else if opCode = UNPACK then
      match eval.head? with
      | none => none
      | some (.arr n) => some n
      | some (.strct n) => some n
      | some .prim => some 0
    else some 0
  match sizeOpt with
  | none => false
  | some size => decide (size + eval.length + altCount ≤ DUPLICATE_STACK_SIZE)

/-- The call site in `Invoke` (neovm_service.go:154–158): the check runs
only while the instruction pointer is still inside the code. -/
def stackCheckAfterOp (ip codeLen : Nat) (opCode : Nat) (eval : List VmItem)
    (altCount : Nat) : Bool :=
  if ip < codeLen then checkStackSize opCode eval altCount else true

/-- The spec's push-opcode class (§4.2): `PUSH0`, the literal pushes
`PUSHBYTES1..75`, `PUSHDATA{1,2,4}`, `PUSHM1`, and `PUSH1..PUSH16`. -/
def isPushOp (op : Nat) : Bool :=
  op = PUSH0 || (PUSHBYTES1 ≤ op && op ≤ PUSHBYTES75) || op = PUSHDATA1 ||
  op = PUSHDATA2 || op = PUSHDATA4 || op = PUSHM1 || (PUSH1 ≤ op && op ≤ PUSH16)

/-- The stack-size rule as the claim words it — for refinement
comparison only, NOT translated from the source: every push opcode
(including `PUSH16`) and `DEPTH`/`DUP`/`OVER`/`TUCK` is pre-charged 1,
`UNPACK` its target size, everything else 0. -/
def checkStackSizeSpec (opCode : Nat) (eval : List VmItem) (altCount : Nat) : Bool :=
  let sizeOpt : Option Nat :=
    if isPushOp opCode || opCode = DEPTH || opCode = DUP || opCode = OVER ||
        opCode = TUCK then some 1
    else if opCode = UNPACK then
      match eval.head? with
      | none => none
      | some (.arr n) => some n
      | some (.strct n) => some n
      | some .prim => some 0
    else some 0
  match sizeOpt with
  | none => false
  | some size => decide (size + eval.length + altCount ≤ DUPLICATE_STACK_SIZE)

/-- C4 counterexample: `PUSH16` is a push opcode, yet the code's check
pre-charges it 0 (`OpCode < PUSH16` is strict), so with an empty
evaluation stack and 2048 alt-stack items the code passes while the
claimed rule (push opcodes pre-charged 1) fails. -/
theorem stack_size_push16_counterexample :
    checkStackSize PUSH16 [] DUPLICATE_STACK_SIZE = true ∧
    checkStackSizeSpec PUSH16 [] DUPLICATE_STACK_SIZE = false ∧
    isPushOp PUSH16 = true :=
  ⟨rfl, rfl, rfl⟩

/-- C4 (amended): the post-opcode check is skipped once the IP is past
the end of the code; otherwise the count plus predicted growth must not
exceed 2048, where the growth is 1 for every opcode byte strictly below
`PUSH16` (all push opcodes except `PUSH16` itself, which gets 0), 1 for
`DEPTH`/`DUP`/`OVER`/`TUCK`, the top Array/Struct element count for
`UNPACK` (outright failure on an empty stack, 0 when the top item is
not an Array/Struct), and 0 for every other opcode. -/
theorem stack_size_rule_amended :
    (∀ ip codeLen op eval alt, codeLen ≤ ip →
        stackCheckAfterOp ip codeLen op eval alt = true) ∧
    (∀ op eval alt, op < PUSH16 →
        checkStackSize op eval alt =
          decide (1 + eval.length + alt ≤ DUPLICATE_STACK_SIZE)) ∧
    (∀ eval alt, checkStackSize PUSH16 eval alt =
        decide (eval.length + alt ≤ DUPLICATE_STACK_SIZE)) ∧
    (∀ op eval alt, op = DEPTH ∨ op = DUP ∨ op = OVER ∨ op = TUCK →
        checkStackSize op eval alt =
          decide (1 + eval.length + alt ≤ DUPLICATE_STACK_SIZE)) ∧
    (∀ alt, checkStackSize UNPACK [] alt = false) ∧
    (∀ n rest alt, checkStackSize UNPACK (.arr n :: rest) alt =
        decide (n + (rest.length + 1) + alt ≤ DUPLICATE_STACK_SIZE)) ∧
    (∀ n rest alt, checkStackSize UNPACK (.strct n :: rest) alt =
        decide (n + (rest.length + 1) + alt ≤ DUPLICATE_STACK_SIZE)) ∧
    (∀ rest alt, checkStackSize UNPACK (.prim :: rest) alt =
        decide (rest.length + 1 + alt ≤ DUPLICATE_STACK_SIZE)) ∧
    (∀ op eval alt, PUSH16 < op →
        op ≠ DEPTH → op ≠ DUP → op ≠ OVER → op ≠ TUCK → op ≠ UNPACK →
        checkStackSize op eval alt =
          decide (eval.length + alt ≤ DUPLICATE_STACK_SIZE)) := by
  refine ⟨?_, ?_, ?_, ?_, ?_, ?_, ?_, ?_, ?_⟩
  · intro ip codeLen op eval alt h
    simp [stackCheckAfterOp]
    omega
  · intro op eval alt h
    simp [checkStackSize, h]
  · intro eval alt
    simp [checkStackSize, PUSH16, DEPTH, DUP, OVER, TUCK, UNPACK]
  · intro op eval alt h
    have hlt : ¬ op < PUSH16 := by
      rcases h with rfl | rfl | rfl | rfl <;> simp [PUSH16, DEPTH, DUP, OVER, TUCK]
    rcases h with rfl | rfl | rfl | rfl <;> simp [checkStackSize, hlt]
  · intro alt
    simp [checkStackSize, PUSH16, DEPTH, DUP, OVER, TUCK, UNPACK]
  · intro n rest alt
    simp [checkStackSize, PUSH16, DEPTH, DUP, OVER, TUCK, UNPACK]
  · intro n rest alt
    simp [checkStackSize, PUSH16, DEPTH, DUP, OVER, TUCK, UNPACK]
  · intro rest alt
    simp [checkStackSize, PUSH16, DEPTH, DUP, OVER, TUCK, UNPACK]
  · intro op eval alt h h1 h2 h3 h4 h5
    have hlt : ¬ op < PUSH16 := by omega
    simp [checkStackSize, hlt, h1, h2, h3, h4, h5]

/-- Witness for `stack_size_rule_amended`: `PUSH0` on an empty machine
is pre-charged 1. -/
theorem stack_size_rule_amended_witness :
    checkStackSize PUSH0 [] 0 =
      decide (1 + List.length ([] : List VmItem) + 0 ≤ DUPLICATE_STACK_SIZE) :=
  stack_size_rule_amended.2.1 PUSH0 [] 0 (by decide)

/-! ### C5: SYSCALL dispatch (NeoVmService.SystemCall) -/

/-- Host state a service acts on: the remaining gas
(`SmartContract.Gas`, spent through `CheckUseGas`) and an abstract
world component standing for everything a service effect may touch. -/
structure SysState where
  gas : Nat
  world : List String
deriving DecidableEq, Repr

/-- One entry of `ServiceMap`: an optional pre-execution `Validator`
and the `Execute` effect, both fallible. -/
structure SysService where
  validator : Option (SysState → Except String Unit)
  execute : SysState → Except String SysState

inductive SysCallErr where
  | unsupportedService (name : String)
  | validatorError (msg : String)
  | gasPriceError
  | gasInsufficient
  | executeError (msg : String)
deriving DecidableEq, Repr

/-- `NeoVmService.SystemCall` after the service name has been read from
the operand reader: look the name up in `ServiceMap` (unknown →
unsupported-service error); run the validator when present (its error
is wrapped); compute the price via `GasPrice` and charge it through
`CheckUseGas` — insufficient gas aborts, with the gas and the world
untouched and the effect never entered; finally run the effect on the
gas-decremented state, surfacing its errors (wrapped). -/
def systemCall (serviceMap : String → Option SysService)
    (gasPrice : String → Option Nat) (name : String) (st : SysState) :
    Except SysCallErr SysState :=
  match serviceMap name with
  | none => .error (.unsupportedService name)
  | some svc =>
    match (match svc.validator with
           | none => Except.ok ()
           | some v => v st : Except String Unit) with
    | .error msg => .error (.validatorError msg)
    | .ok _ =>
      match gasPrice name with
      | none => .error .gasPriceError
      | some price =>
        if st.gas < price then .error .gasInsufficient
        else
          match svc.execute { st with gas := st.gas - price } with
          | .error msg => .error (.executeError msg)
          | .ok st' => .ok st'

/-- C5: SYSCALL order of checks — unknown name aborts with the
unsupported-service error; a failing validator aborts; with the
validator passing (or absent) and the gas below the price, the call
aborts with the insufficient-gas error for EVERY effect function, i.e.
without executing the effect; otherwise the effect runs on the
gas-charged state and its errors surface. -/
theorem syscall_dispatch_order (serviceMap : String → Option SysService)
    (gasPrice : String → Option Nat) (name : String) (st : SysState) :
    (serviceMap name = none →
      systemCall serviceMap gasPrice name st = .error (.unsupportedService name)) ∧
    (∀ svc v msg, serviceMap name = some svc → svc.validator = some v →
      v st = .error msg →
      systemCall serviceMap gasPrice name st = .error (.validatorError msg)) ∧
    (∀ svc price, serviceMap name = some svc →
      (svc.validator = none ∨ ∃ v, svc.validator = some v ∧ v st = .ok ()) →
      gasPrice name = some price → st.gas < price →
      systemCall serviceMap gasPrice name st = .error .gasInsufficient) ∧
    (∀ svc price, serviceMap name = some svc →
      (svc.validator = none ∨ ∃ v, svc.validator = some v ∧ v st = .ok ()) →
      gasPrice name = some price → price ≤ st.gas →
      systemCall serviceMap gasPrice name st =
        match svc.execute { st with gas := st.gas - price } with
        | .error msg => .error (.executeError msg)
        | .ok st' => .ok st') := by
  refine ⟨?_, ?_, ?_, ?_⟩
  · intro h; simp [systemCall, h]
  · intro svc v msg hs hv herr
    simp [systemCall, hs, hv, herr]
  · intro svc price hs hval hp hgas
    rcases hval with hv | ⟨v, hv, hok⟩
    · simp [systemCall, hs, hv, hp, hgas]
    · simp [systemCall, hs, hv, hok, hp, hgas]
  · intro svc price hs hval hp hgas
    have hlt : ¬ st.gas < price := by omega
    rcases hval with hv | ⟨v, hv, hok⟩
    · simp [systemCall, hs, hv, hp, hlt]
    · simp [systemCall, hs, hv, hok, hp, hlt]

/-- Witness for `syscall_dispatch_order`: a validator-free service
priced at 100 with only 50 gas left aborts with insufficient gas. -/
theorem syscall_dispatch_order_witness :
    systemCall (fun _ => some ⟨none, fun s => Except.ok s⟩) (fun _ => some 100)
      "Runtime.Notify" ⟨50, []⟩ = .error .gasInsufficient :=
  (syscall_dispatch_order (fun _ => some ⟨none, fun s => Except.ok s⟩)
      (fun _ => some 100) "Runtime.Notify" ⟨50, []⟩).2.2.1
    ⟨none, fun s => Except.ok s⟩ 100 rfl (Or.inl rfl) rfl (by decide)

/-! ### C8: the VERIFY opcode -/

/-- Canonical Boolean byte encoding (spec §3): true ↔ a single `0x01`
byte, false ↔ empty bytes. -/
def boolBytes (b : Bool) : Bytes := if b then [1] else []

/-- The `case vm.VERIFY` block of `Invoke`: require at least 3
evaluation-stack items; pop the public key, then the signature, then
the data; abort if the public-key bytes fail to deserialize; otherwise
push the Boolean outcome of `signature.Verify` — a bad signature pushes
false and never aborts.  `keypair.DeserializePublicKey` and
`signature.Verify` live outside the provided sources and are
parameters. -/
def verifyOp {K : Type} (deserializeKey : Bytes → Option K)
    (sigVerify : K → Bytes → Bytes → Bool) (stack : List Bytes) :
    Except String (List Bytes) :=
  match stack with
  | pubKey :: sig :: data :: rest =>
    match deserializeKey pubKey with
    | none => .error "deserialize public key error"
    | some key =>
        .ok (boolBytes (sigVerify key data sig) :: rest)
  | _ => .error "[VERIFY] too few input parameters"

/-- C8: `VERIFY` errors on fewer than 3 stack items; pops
`(pubkey, sig, data)` top-down; aborts exactly when the public-key
bytes are malformed; and otherwise pushes the Boolean verdict — false
for a bad signature — without ever aborting. -/
theorem verify_op_behavior {K : Type} (deserializeKey : Bytes → Option K)
    (sigVerify : K → Bytes → Bytes → Bool) :
    (∀ stack : List Bytes, stack.length < 3 →
      verifyOp deserializeKey sigVerify stack =
        .error "[VERIFY] too few input parameters") ∧
    (∀ pubKey sig data rest, deserializeKey pubKey = none →
      verifyOp deserializeKey sigVerify (pubKey :: sig :: data :: rest) =
        .error "deserialize public key error") ∧
    (∀ pubKey sig data rest key, deserializeKey pubKey = some key →
      verifyOp deserializeKey sigVerify (pubKey :: sig :: data :: rest) =
        .ok (boolBytes (sigVerify key data sig) :: rest)) := by
  refine ⟨?_, ?_, ?_⟩
  · intro stack h
    match stack with
    | [] => rfl
    | [a] => rfl
    | [a, b] => rfl
    | a :: b :: c :: rest => exact absurd h (by simp)
  · intro pubKey sig data rest h
    simp [verifyOp, h]
  · intro pubKey sig data rest key h
    simp [verifyOp, h]

/-- Witness for `verify_op_behavior`: a well-formed key whose signature
check fails pushes the canonical false, with no error. -/
theorem verify_op_behavior_witness :
    verifyOp (fun _ => some ()) (fun _ _ _ => false) [[1], [2], [3]] =
      .ok (boolBytes false :: []) :=
  (verify_op_behavior (fun _ => some ()) (fun _ _ _ => false)).2.2
    [1] [2] [3] [] () rfl

/-! ### C6: APPCALL semantics -/

/-- C6: APPCALL reads a 20-byte immediate (shorter reads fail); a
zero-filled operand instead pops the target from the evaluation stack,
failing on an empty stack or a non-20-byte address; a non-zero 20-byte
immediate is the target itself with the stack untouched; an unknown
target contract aborts with the contract-not-exist error; and on a
known target the parent's ENTIRE remaining evaluation stack becomes the
child engine's initial stack, with the child's single result (if any)
pushed back on the parent stack before the parent continues. -/
theorem appcall_semantics (addrOf : Program → Address)
    (contracts : Address → Option Program) :
    (∀ operand stack, operand.length ≠ 20 →
      resolveAppcallTarget operand stack = .error .readError) ∧
    (resolveAppcallTarget BYTE_ZERO_20 [] = .error .tooFewParams) ∧
    (∀ a stack, a.length ≠ 20 →
      resolveAppcallTarget BYTE_ZERO_20 (a :: stack) = .error .badAddrLen) ∧
    (∀ a stack, a.length = 20 →
      resolveAppcallTarget BYTE_ZERO_20 (a :: stack) = .ok (a, stack)) ∧
    (∀ operand stack, operand.length = 20 → operand ≠ BYTE_ZERO_20 →
      resolveAppcallTarget operand stack = .ok (operand, stack)) ∧
    (∀ fuel sc svc operand rest addr stack1,
      resolveAppcallTarget operand svc.stack = .ok (addr, stack1) →
      contracts addr = none →
      run addrOf contracts (fuel + 1) sc svc (.appcall operand :: rest) =
        .error .contractNotExist) ∧
    (∀ fuel sc svc operand rest addr stack1 prog,
      resolveAppcallTarget operand svc.stack = .ok (addr, stack1) →
      contracts addr = some prog →
      checkContexts sc.contexts.length = true →
      run addrOf contracts (fuel + 1) sc svc (.appcall operand :: rest) =
        match invoke addrOf contracts fuel sc stack1 prog with
        | .error e => .error e
        | .ok (result, sc') =>
            run addrOf contracts fuel sc'
              { svc with stack := match result with
                  | some v => v :: stack1
                  | none => stack1 } rest) := by
  refine ⟨?_, ?_, ?_, ?_, ?_, ?_, ?_⟩
  · intro operand stack h; simp [resolveAppcallTarget, h]
  · rfl
  · intro a stack h; simp [resolveAppcallTarget, BYTE_ZERO_20, h]
  · intro a stack h
    simp [resolveAppcallTarget, BYTE_ZERO_20, h]
  · intro operand stack h hne
    simp [resolveAppcallTarget, h, hne]
  · intro fuel sc svc operand rest addr stack1 hres hnone
    simp [run, hres, hnone]
  · intro fuel sc svc operand rest addr stack1 prog hres hsome hchk
    simp only [run, hres, hsome, hchk, if_true, invoke]

/-- Witness for `appcall_semantics`: a non-zero 20-byte immediate is
used as the target directly. -/
theorem appcall_semantics_witness :
    resolveAppcallTarget addrB [] = .ok (addrB, []) :=
  (appcall_semantics addrOfEx contractsEx).2.2.2.2.1 addrB []
    (by decide) (by decide)

/-! ### C9: ontid encodeID / decodeID -/

/-- Modelled from the spec: `utils.OntIDContractAddress`, the identity
native contract's fixed 20-byte address, is defined outside the
provided sources; the ID-codec claims depend only on it being a fixed
20-byte constant prefix. -/
def OntIDContractAddress : Address := List.replicate 19 0 ++ [3]

inductive IdErr where
  | invalidIDLength    -- "encode ID error: invalid ID length"
  | invalidDataLength  -- "decode ID error: invalid data length"
  | indexOutOfRange    -- Go runtime panic indexing data[prefix] when len(data) = prefix
deriving DecidableEq, Repr

/-- `encodeID` from the ontid native contract: IDs of length 0 or above
255 are rejected; otherwise the encoding is the contract address, the
ID length as one byte, then the ID. -/
def encodeID (id : Bytes) : Except IdErr Bytes :=
  if id.length = 0 ∨ id.length > 255 then .error .invalidIDLength
  else .ok (OntIDContractAddress ++ id.length :: id)

/-- `decodeID`: reject data shorter than the 20-byte prefix or whose
total length disagrees with the embedded length byte at position 20,
and return the bytes after that length byte.  When the data is exactly
20 bytes the Go code indexes `data[prefix]` out of range (a runtime
panic), modelled by the distinguished `indexOutOfRange` error. -/
def decodeID (data : Bytes) : Except IdErr Bytes :=
  if data.length < OntIDContractAddress.length then .error .invalidDataLength
  else
    match data[OntIDContractAddress.length]? with
    | none => .error .indexOutOfRange
    | some b =>
      if data.length ≠ b + 1 + OntIDContractAddress.length then
        .error .invalidDataLength
      else .ok (data.drop (OntIDContractAddress.length + 1))

/-- C9: for IDs of length 1..255, `encodeID` yields
`OntIDContractAddress ++ [len] ++ id` and `decodeID` inverts it;
`encodeID` rejects empty and over-255-byte IDs; `decodeID` fails on any
data whose length disagrees with its embedded length byte (including
data too short to carry one). -/
theorem id_codec (id : Bytes) :
    (1 ≤ id.length → id.length ≤ 255 →
      encodeID id = .ok (OntIDContractAddress ++ id.length :: id) ∧
      decodeID (OntIDContractAddress ++ id.length :: id) = .ok id) ∧
    (id.length = 0 ∨ id.length > 255 → encodeID id = .error .invalidIDLength) ∧
    (∀ data : Bytes,
      (∀ b, data[OntIDContractAddress.length]? = some b →
          data.length ≠ b + 1 + OntIDContractAddress.length) →
      ∃ e, decodeID data = .error e) := by
  refine ⟨?_, ?_, ?_⟩
  · intro h1 h2
    have henc : encodeID id = .ok (OntIDContractAddress ++ id.length :: id) := by
      simp only [encodeID]
      rw [if_neg (by omega)]
    refine ⟨henc, ?_⟩
    have hlen : (OntIDContractAddress ++ id.length :: id).length =
        OntIDContractAddress.length + (1 + id.length) := by simp; omega
    have hget : (OntIDContractAddress ++
        id.length :: id)[OntIDContractAddress.length]? = some id.length := by
      rw [List.getElem?_append_right (le_refl _)]
      simp
    have hdrop : (OntIDContractAddress ++ id.length :: id).drop
        (OntIDContractAddress.length + 1) = id := by
      rw [List.drop_append 1]
      rfl
    simp only [decodeID, hget]
    rw [if_neg (by omega), if_neg (by omega), hdrop]
  · intro h
    simp only [encodeID]
    rw [if_pos h]
  · intro data h
    by_cases hshort : data.length < OntIDContractAddress.length
    · exact ⟨.invalidDataLength, by simp [decodeID, hshort]⟩
    · cases hget : data[OntIDContractAddress.length]? with
      | none => exact ⟨.indexOutOfRange, by simp [decodeID, hshort, hget]⟩
      | some b =>
          exact ⟨.invalidDataLength, by simp [decodeID, hshort, hget, h b hget]⟩

/-- Witness for `id_codec`: the one-byte ID `[7]` round-trips. -/
theorem id_codec_witness :
    encodeID [7] = .ok (OntIDContractAddress ++ 1 :: [7]) ∧
    decodeID (OntIDContractAddress ++ 1 :: [7]) = .ok [7] :=
  (id_codec [7]).1 (by decide) (by decide)

end DNA
